import Mathlib

/-!
Shallow embedding of the `extract-hostnames` repository.

The repository holds two parallel implementations of the same engine: a Go
backend (`src/backend/main.go`) and a TypeScript library
(`src/unnamed/part_001`).  Both walk a Gitea-hosted directory tree, classify
"site" directories (those containing a file matching `bm-node-.+\.yaml$`),
extract a hostname annotation from every matched file, and report one record
per site.  The Go backend streams records over a channel closed by a
wait-group-guarded coordinator; the TypeScript library accumulates records in
a map keyed by site path.

Network effects are modelled by explicit oracles: a directory tree value
stands for the remote store's listing responses, and a `fetch` function of
type `String → Except String String` stands for the per-URL content fetch
outcomes (`.error` = transport failure, `.ok` = 200 body).
-/

namespace ExtractHostnames

/-- Go `GiteaFile` / TS listing item: a child entry of a listed path.
`download_url` is the optional direct content locator. -/
structure GiteaFile where
  name : String
  type : String
  download_url : Option String
  deriving DecidableEq, Repr

/-- Go `SiteHostnameInfo` / TS `SiteHostnameInfo`: the per-site output record. -/
structure SiteHostnameInfo where
  sitePath : String
  hostnames : List String
  bmNodeFiles : List String
  errors : List String
  deriving DecidableEq, Repr

/-! ### Character classes of the two regexes

Go's RE2 `\s` is the ASCII class `[\t\n\f\r ]`; `.` matches any character
except `'\n'`.  The quote class of the hostname regex is `["']`. -/

/-- The `\s` character class used by Go's regexp package. -/
def isSpaceChar (c : Char) : Bool :=
  c == ' ' || c == '\t' || c == '\n' || c == '\x0c' || c == '\r'

/-- The single-quote character (written via its code point). -/
def squote : Char := Char.ofNat 39

/-- The `["']` class of `hostnameRegex`. -/
def isQuoteChar (c : Char) : Bool := c == '"' || c == squote

/-- The `[^"'\s]` class of `hostnameRegex`: a captured-value character. -/
def isValueChar (c : Char) : Bool := !(isQuoteChar c) && !(isSpaceChar c)

/-! ### The file-name pattern `bm-node-.+\.yaml$` (Go `bmNodeFileRegex`, TS
`bmNodeFileRegex`).  A name matches iff some occurrence of the literal
`bm-node-` is followed by at least one non-newline character and the literal
`.yaml` at the very end of the name. -/

/-- The literal `bm-node-` of the file-name pattern. -/
def bmNodeKey : List Char := "bm-node-".toList

/-- The literal `.yaml` of the file-name pattern. -/
def yamlEnd : List Char := ".yaml".toList

/-- Does `rest` (the text after an occurrence of `bm-node-`) match
`.+\.yaml$`?  Because `$` anchors the 5-character literal `.yaml` at the end,
the decomposition is unique: the stem is everything but the last 5 characters,
must be nonempty, and must contain no newline. -/
def bmNodeTailOk (rest : List Char) : Bool :=
  decide (6 ≤ rest.length) &&
    rest.drop (rest.length - 5) == yamlEnd &&
    (rest.take (rest.length - 5)).all (fun c => c != '\n')

/-- Scan every start position for a full match of `bm-node-.+\.yaml$`
(`MatchString` / `RegExp.test` are unanchored at the start). -/
def bmNodeScan : List Char → Bool
  | [] => false
  | c :: t =>
    (bmNodeKey.isPrefixOf (c :: t) && bmNodeTailOk ((c :: t).drop bmNodeKey.length))
      || bmNodeScan t

/-- Go `bmNodeFileRegex.MatchString` / TS `bmNodeFileRegex.test`. -/
def bmNodeMatch (name : String) : Bool := bmNodeScan name.toList

/-! ### The hostname annotation pattern
`bmac\.agent-install\.openshift\.io/hostname:\s*["']?([^"'\s]+)["']?`
(Go `hostnameRegex`, TS `hostnameRegex`).  `FindStringSubmatch` /
`String.match` return the first (leftmost) match's capture group. -/

/-- The literal key of `hostnameRegex`. -/
def hostnameKey : List Char := "bmac.agent-install.openshift.io/hostname:".toList

/-- Match the part of `hostnameRegex` after the literal key against `t`:
greedily skip `\s*`, optionally consume one quote, then capture `[^"'\s]+`.
Returns the capture, or `none` when the pattern cannot match here.  (When the
greedy parse fails, no backtracked parse can succeed either: shrinking `\s*`
leaves a whitespace character at the head, and dropping the optional quote
leaves a quote character at the head — neither is a value character — so
failure of this function coincides with failure of the regex engine at this
start position.) -/
def matchAfterKey (t : List Char) : Option (List Char) :=
  let rest := t.dropWhile isSpaceChar
  let rest2 :=
    match rest with
    | [] => ([] : List Char)
    | c :: cs => if isQuoteChar c then cs else c :: cs
  match rest2.takeWhile isValueChar with
  | [] => none
  | v => some v

/-- Scan start positions left to right for the first full match of
`hostnameRegex`, returning its capture group. -/
def extractHostnameAux : List Char → Option (List Char)
  | [] => none
  | c :: t =>
    if hostnameKey.isPrefixOf (c :: t) then
      match matchAfterKey ((c :: t).drop hostnameKey.length) with
      | some v => some v
      | none => extractHostnameAux t
    else
      extractHostnameAux t

/-- TS `extractHostnameFromContent` / the Go use of
`hostnameRegex.FindStringSubmatch`: first capture group of the first match,
or `none` (Go: `len(match) <= 1`) when the content has no match. -/
def extractHostnameFromContent (content : String) : Option String :=
  (extractHostnameAux content.toList).map (fun cs => cs.asString)

example : bmNodeMatch "bm-node-a.yaml" = true := by decide
example : bmNodeMatch "bm-node-.yaml" = false := by decide
example : bmNodeMatch "bm-node-worker1.yaml" = true := by decide
example : bmNodeMatch "xbm-node-a.yaml.bak" = false := by decide
example : bmNodeMatch "other.yaml" = false := by decide
example :
    extractHostnameFromContent
      "metadata:\n  annotations:\n    bmac.agent-install.openshift.io/hostname: \"example.com\"\n"
      = some "example.com" := by decide
example :
    extractHostnameFromContent "bmac.agent-install.openshift.io/hostname: host1\n"
      = some "host1" := by decide
example : extractHostnameFromContent "no key here" = none := by decide

/-! ### Remote Tree Client -/

/-- Outcome of one HTTP round trip, as seen by Go's `client.Get`:
either a transport-level error (connection failure, the client's 15-second
timeout firing, ...) carrying the Go error's message, or a response with a
status code, status text and body. -/
inductive HttpOutcome where
  | failure (msg : String) : HttpOutcome
  | response (status : Nat) (statusText : String) (body : String) : HttpOutcome
  deriving DecidableEq, Repr

/-- The Go HTTP client's configured timeout: `Timeout: 15 * time.Second`. -/
def goClientTimeoutSeconds : Nat := 15

/-- The TS request timeout: `request.setTimeout(15000, ...)` (milliseconds). -/
def tsRequestTimeoutMillis : Nat := 15000

/-- Go `fetchURL`, as a translation of the given HTTP outcome: a transport
error is returned as-is; a non-200 status becomes the error
`"HTTP <code>: <status> for <url>"`; a 200 response yields the body. -/
def fetchURL (url : String) (o : HttpOutcome) : Except String String :=
  match o with
  | .failure msg => .error msg
  | .response status statusText body =>
    if status != 200 then
      .error ("HTTP " ++ toString status ++ ": " ++ statusText ++ " for " ++ url)
    else
      .ok body

/-- Drop every trailing `'/'`, as Go's `strings.TrimRight(repoURL, "/")`. -/
def trimTrailingSlashes (s : String) : String :=
  (s.toList.reverse.dropWhile (fun c => c == '/')).reverse.asString

/-- Split a character list at every occurrence of `sep` (the semantics of
Go's `strings.Split` / JS `String.prototype.split` for a one-character
separator; written structurally so the kernel can evaluate it). -/
def splitCharsOn (sep : Char) : List Char → List (List Char)
  | [] => [[]]
  | c :: t =>
    let r := splitCharsOn sep t
    if c == sep then
      [] :: r
    else
      match r with
      | [] => [[c]]
      | h :: rest => (c :: h) :: rest

/-- Split a string on `'/'`. -/
def splitSlashes (s : String) : List String :=
  (splitCharsOn '/' s.toList).map (fun l => l.asString)

/-- Join URL segments with `'/'` (Go's `strings.Join(parts, "/")`). -/
def joinSlash : List String → String
  | [] => ""
  | [x] => x
  | x :: xs => x ++ "/" ++ joinSlash xs

/-- Go `constructRawURL` / TS `constructRawUrl`: split the repository URL on
`'/'`, take the last two segments as owner and repo, and build
`<base>/<owner>/<repo>/raw/branch/<branch>/<filePath>`. -/
def constructRawURL (repoURL filePath branch : String) : String :=
  let urlParts := splitSlashes (trimTrailingSlashes repoURL)
  let owner := (urlParts.drop (urlParts.length - 2)).headD ""
  let repo := (urlParts.drop (urlParts.length - 1)).headD ""
  let baseURL := joinSlash (urlParts.take (urlParts.length - 2))
  baseURL ++ "/" ++ owner ++ "/" ++ repo ++ "/raw/branch/" ++ branch ++ "/" ++ filePath

/-- Go `getGiteaDirectoryListing`, over an abstract fetch outcome and an
abstract JSON-array decoder (`decode body = none` models
`json.Unmarshal` failing, e.g. because the path resolved to a single file and
Gitea returned an object instead of an array): a fetch error propagates, an
undecodable body yields `nil, nil` — an EMPTY listing and no error. -/
def getGiteaDirectoryListing (fetchResult : Except String String)
    (decode : String → Option (List GiteaFile)) : Except String (List GiteaFile) :=
  match fetchResult with
  | .error e => .error e
  | .ok body =>
    match decode body with
    | none => .ok []
    | some files => .ok files

/-- TS `getGiteaDirectoryListing`: the whole body is wrapped in
`try ... catch { return [] }`, so a fetch rejection AND a non-array body both
yield the empty listing; only a decoded array is returned as-is. -/
def tsGetGiteaDirectoryListing (fetchResult : Except String String)
    (decode : String → Option (List GiteaFile)) : List GiteaFile :=
  match fetchResult with
  | .error _ => []
  | .ok body =>
    match decode body with
    | none => []
    | some files => files

/-! ### Site Classifier -/

/-- Go `isSiteDirectory`: some entry is a `"file"` whose name matches the
`bm-node` pattern. -/
def isSiteDirectory (items : List GiteaFile) : Bool :=
  items.any (fun f => f.type == "file" && bmNodeMatch f.name)

/-- TS `isSiteDirectory`: as Go's, plus JS's truthiness check `item.name &&`
(an empty name short-circuits to false before the regex test). -/
def tsIsSiteDirectory (items : List GiteaFile) : Bool :=
  items.any (fun f => f.type == "file" && f.name != "" && bmNodeMatch f.name)

/-! ### Site Processor -/

/-- The URL the Go `processSiteDirectory` fetches a matched file from: the
source always calls `constructRawURL` (its comment: "Always construct the URL
to ensure consistent hostname") and never consults `file.DownloadURL`. -/
def goFileURL (repoURL sitePath branch : String) (file : GiteaFile) : String :=
  constructRawURL repoURL (sitePath ++ "/" ++ file.name) branch

/-- The URL the TS `processSiteDirectory` fetches a matched file from:
`file.download_url || this.constructRawUrl(...)` — the direct locator when
present, the synthesized raw URL otherwise. -/
def tsFileUrl (repoUrl sitePath branch : String) (file : GiteaFile) : String :=
  match file.download_url with
  | some u => u
  | none => constructRawURL repoUrl (sitePath ++ "/" ++ file.name) branch

/-- Does a listing entry pass the Go matched-file filter of
`processSiteDirectory`? -/
def isMatchedFile (f : GiteaFile) : Bool :=
  f.type == "file" && bmNodeMatch f.name

/-- The body of the Go per-file loop: a matched file's name is recorded, its
content fetched, and exactly one of `hostnames`/`errors` extended. -/
def processFileStep (fetch : String → Except String String)
    (repoURL sitePath branch : String) (si : SiteHostnameInfo) (file : GiteaFile) :
    SiteHostnameInfo :=
  if isMatchedFile file then
    let si := { si with bmNodeFiles := si.bmNodeFiles ++ [file.name] }
    match fetch (goFileURL repoURL sitePath branch file) with
    | .error e =>
      { si with errors := si.errors ++ ["Error processing " ++ file.name ++ ": " ++ e] }
    | .ok content =>
      match extractHostnameFromContent content with
      | some h => { si with hostnames := si.hostnames ++ [h] }
      | none =>
        { si with errors := si.errors ++ ["No hostname annotation found in " ++ file.name] }
  else
    si

/-- Go `processSiteDirectory`, over the result of its own (second) directory
listing and a fetch oracle.  A listing failure yields a record holding only
that failure; otherwise every listed entry is folded through the per-file
loop.  (The Go function then sends the record on the channel; the engine
model below appends it to the trace.) -/
def processSiteDirectory (fetch : String → Except String String)
    (repoURL sitePath branch : String) (listing : Except String (List GiteaFile)) :
    SiteHostnameInfo :=
  let siteInfo : SiteHostnameInfo :=
    { sitePath := sitePath, hostnames := [], bmNodeFiles := [], errors := [] }
  match listing with
  | .error e => { siteInfo with errors := [e] }
  | .ok items => items.foldl (processFileStep fetch repoURL sitePath branch) siteInfo

/-- Does a listing entry pass the TS matched-file filter (with the JS
truthiness check on `item.name`)? -/
def tsIsMatchedFile (f : GiteaFile) : Bool :=
  f.type == "file" && f.name != "" && bmNodeMatch f.name

/-- The body of the TS per-file loop (over the pre-filtered matched files);
it differs from the Go loop only in the URL choice. -/
def tsProcessFileStep (fetch : String → Except String String)
    (repoUrl sitePath branch : String) (si : SiteHostnameInfo) (file : GiteaFile) :
    SiteHostnameInfo :=
  let si := { si with bmNodeFiles := si.bmNodeFiles ++ [file.name] }
  match fetch (tsFileUrl repoUrl sitePath branch file) with
  | .error e =>
    { si with errors := si.errors ++ ["Error processing " ++ file.name ++ ": " ++ e] }
  | .ok content =>
    match extractHostnameFromContent content with
    | some h => { si with hostnames := si.hostnames ++ [h] }
    | none =>
      { si with errors := si.errors ++ ["No hostname annotation found in " ++ file.name] }

/-- TS `processSiteDirectory`, over the items its inner
`getGiteaDirectoryListing` call returned (that call never throws — it returns
`[]` on any failure — so the surrounding `try/catch`'s error arm is dead). -/
def tsProcessSiteDirectory (fetch : String → Except String String)
    (repoUrl sitePath branch : String) (items : List GiteaFile) : SiteHostnameInfo :=
  let siteInfo : SiteHostnameInfo :=
    { sitePath := sitePath, hostnames := [], bmNodeFiles := [], errors := [] }
  (items.filter tsIsMatchedFile).foldl (tsProcessFileStep fetch repoUrl sitePath branch) siteInfo

/-! ### The remote store

One discovery run walks one immutable snapshot of the hosted tree.  The
snapshot is modelled as an inductive tree: each node is either a directory
whose listing succeeds (with one subtree per listed entry — the subtree is
only meaningful for entries of type `"dir"`) or a path whose listing call
fails with a message (transport failure / non-200 status). -/

inductive FSNode where
  | fail (msg : String) : FSNode
  | dir (children : List (GiteaFile × FSNode)) : FSNode
  deriving Repr

/-- The listing the store returns for the path a node sits at. -/
def listingOfNode : FSNode → Except String (List GiteaFile)
  | .fail m => .error m
  | .dir ch => .ok (ch.map (fun c => c.1))

/-- Resolve a path (a list of segments) against the snapshot, giving the
listing response of the remote store for that path: a missing segment is a
404-style failure, a path landing on a file is the Gitea single-file object —
which both implementations' decoders turn into an empty listing. -/
def resolveSegs : FSNode → List String → Except String (List GiteaFile)
  | .fail m, _ => .error m
  | .dir ch, [] => .ok (ch.map (fun c => c.1))
  | .dir ch, seg :: rest =>
    match ch.find? (fun c => c.1.name == seg) with
    | none => .error ("HTTP 404: Not Found for " ++ seg)
    | some c =>
      if c.1.type == "dir" then
        resolveSegs c.2 rest
      else
        match rest with
        | [] => .ok []
        | _ => .error ("HTTP 404: Not Found for " ++ seg)

/-- Listing response of the store for a slash-separated path (the empty path
is the tree root). -/
def resolvePath (root : FSNode) (p : String) : Except String (List GiteaFile) :=
  if p == "" then listingOfNode root else resolveSegs root (splitSlashes p)

/-! ### Recursive Discovery Coordinator (Go), as a small-step system

`discoverSitesRecursively` spawns one goroutine per directory, guarded by a
`sync.WaitGroup`: `wg.Add(1)` before each `go`, `defer wg.Done()` inside, and
the coordinator runs `wg.Wait()` and then (in `dataHandler`'s producer
goroutine) `close(siteInfoChan)`.  The model keeps the multiset of
outstanding branches, the wait-group counter, the sequence of channel events
so far, and the channel's closed flag; one step runs one whole branch body
(its send on the channel precedes the spawning of its children in the Go
program order, so the two are folded into one atomic step) or performs the
`Wait`-then-`close` of the coordinator, enabled exactly when the counter has
reached zero. -/

/-- Run parameters of one walk. -/
structure Gcfg where
  fetch : String → Except String String
  repoURL : String
  branch : String

/-- One outstanding branch: the path it explores, the subtree the store holds
at that path, and — as proof instrumentation only — the record of the nearest
site ancestor that published before this branch was spawned (`none` when no
ancestor was a site). -/
structure Task where
  path : String
  node : FSNode
  origin : Option SiteHostnameInfo

/-- One observable event on the result channel. -/
inductive Event where
  | publish (rec : SiteHostnameInfo) : Event
  | close : Event
  deriving DecidableEq, Repr

/-- Go `discoverSitesRecursively`'s path key: the root's empty path is
replaced by the sentinel `"root"`. -/
def pathKeyOf (p : String) : String := if p == "" then "root" else p

/-- Path of a child directory: `name` at the root, `p ++ "/" ++ name` below. -/
def childPathOf (p name : String) : String :=
  if p == "" then name else p ++ "/" ++ name

/-- The record a site branch at path `p` publishes: Go's
`processSiteDirectory(repoURL, pathKey, branch, ...)`, whose own listing call
hits the store at `pathKey` (note: at the root this is the path `"root"`,
not the root itself). -/
def branchRecord (cfg : Gcfg) (root : FSNode) (p : String) : SiteHostnameInfo :=
  processSiteDirectory cfg.fetch cfg.repoURL (pathKeyOf p) cfg.branch
    (resolvePath root (pathKeyOf p))

/-- The events one branch sends on the channel: nothing if its listing
fails or it is not a site, otherwise its one site record. -/
def branchPublishes (cfg : Gcfg) (root : FSNode) (tk : Task) : List Event :=
  match tk.node with
  | .fail _ => []
  | .dir ch =>
    if isSiteDirectory (ch.map (fun c => c.1)) then
      [Event.publish (branchRecord cfg root tk.path)]
    else
      []

/-- The child branches one branch spawns: one per listed entry of type
`"dir"`.  The ghost `origin` marks children of a site directory with the
record that directory already published. -/
def branchSpawns (cfg : Gcfg) (root : FSNode) (tk : Task) : List Task :=
  match tk.node with
  | .fail _ => []
  | .dir ch =>
    let org :=
      if isSiteDirectory (ch.map (fun c => c.1)) then
        some (branchRecord cfg root tk.path)
      else
        tk.origin
    ch.filterMap (fun c =>
      if c.1.type == "dir" then
        some { path := childPathOf tk.path c.1.name, node := c.2, origin := org }
      else
        none)

/-- The coordinator's run state. -/
structure EngineState where
  tasks : List Task
  counter : Nat
  trace : List Event
  closed : Bool

/-- Start of a run: `wg.Add(1)` and one goroutine for the empty (root) path. -/
def initState (root : FSNode) : EngineState :=
  { tasks := [{ path := "", node := root, origin := none }],
    counter := 1, trace := [], closed := false }

/-- One scheduler step: either any outstanding branch runs to completion
(sending its events, registering its children — `wg.Add` before `go` — and
then its deferred `wg.Done`), or the coordinator's `wg.Wait()` returns
because the counter is zero and the channel is closed. -/
inductive Step (cfg : Gcfg) (root : FSNode) : EngineState → EngineState → Prop where
  | branch (pre post : List Task) (tk : Task) (c : Nat) (tr : List Event) :
      Step cfg root
        { tasks := pre ++ tk :: post, counter := c, trace := tr, closed := false }
        { tasks := pre ++ post ++ branchSpawns cfg root tk,
          counter := c + (branchSpawns cfg root tk).length - 1,
          trace := tr ++ branchPublishes cfg root tk, closed := false }
  | close (ts : List Task) (tr : List Event) :
      Step cfg root
        { tasks := ts, counter := 0, trace := tr, closed := false }
        { tasks := ts, counter := 0, trace := tr ++ [Event.close], closed := true }

/-- Reachability under any interleaving of branch steps. -/
def Reaches (cfg : Gcfg) (root : FSNode) : EngineState → EngineState → Prop :=
  Relation.ReflTransGen (Step cfg root)

/-! ### Recursive discovery (TS), sequential map accumulation -/

/-- TS `discoverSitesRecursively`'s map key: `currentPath || 'root'`. -/
def tsSiteKey (p : String) : String := if p == "" then "root" else p

/-- JS `Map.prototype.set` on an association list: replace in place when the
key is present, append otherwise. -/
def mapSet (m : List (String × SiteHostnameInfo)) (k : String) (v : SiteHostnameInfo) :
    List (String × SiteHostnameInfo) :=
  if m.any (fun kv => kv.1 == k) then
    m.map (fun kv => if kv.1 == k then (k, v) else kv)
  else
    m ++ [(k, v)]

/-- The listing TS `getGiteaDirectoryListing` yields for a path of the
snapshot: a genuine array on success, `[]` on any failure. -/
def tsListingAt (root : FSNode) (p : String) : List GiteaFile :=
  match resolvePath root p with
  | .error _ => []
  | .ok items => items

mutual

/-- TS `discoverSitesRecursively`: list the current path, record the site (if
any) under `currentPath || 'root'` — note the record itself is built from
`currentPath`, and `processSiteDirectory` re-lists `currentPath` — then
recurse sequentially into each subdirectory. -/
def tsDiscover (fetch : String → Except String String) (repoUrl branch : String)
    (root : FSNode) (p : String) (node : FSNode)
    (m : List (String × SiteHostnameInfo)) : List (String × SiteHostnameInfo) :=
  match node with
  | .fail _ => m
  | .dir ch =>
    let items := ch.map (fun c => c.1)
    let m1 :=
      if tsIsSiteDirectory items then
        mapSet m (tsSiteKey p)
          (tsProcessSiteDirectory fetch repoUrl p branch (tsListingAt root p))
      else
        m
    tsDiscoverChildren fetch repoUrl branch root p ch m1

/-- The sequential `for (const subdir of subdirectories)` loop. -/
def tsDiscoverChildren (fetch : String → Except String String) (repoUrl branch : String)
    (root : FSNode) (p : String) (ch : List (GiteaFile × FSNode))
    (m : List (String × SiteHostnameInfo)) : List (String × SiteHostnameInfo) :=
  match ch with
  | [] => m
  | c :: rest =>
    let m1 :=
      if c.1.type == "dir" then
        tsDiscover fetch repoUrl branch root (childPathOf p c.1.name) c.2 m
      else
        m
    tsDiscoverChildren fetch repoUrl branch root p rest m1

end

/-- TS `extractHostnamesFromGiteaRepository`: the whole walk from the root,
starting with an empty map. -/
def tsExtractHostnamesFromGiteaRepository (fetch : String → Except String String)
    (repoUrl branch : String) (root : FSNode) : List (String × SiteHostnameInfo) :=
  tsDiscover fetch repoUrl branch root "" root []

/-! ## Theorems -/

/-- C3: when the Site Processor's own children listing fails, the returned
record holds exactly the listing failure in `errors`, and empty `hostnames`
and `matchedFiles` (`bmNodeFiles`) sequences.  (The failure cannot abort the
walk: the record is simply sent on the channel like any other — branch
termination of the whole run, listing failures included, is the close
discipline proved for C2/C7.) -/
theorem processSiteDirectory_listing_failure
    (fetch : String → Except String String) (repoURL sitePath branch e : String) :
    processSiteDirectory fetch repoURL sitePath branch (.error e)
      = { sitePath := sitePath, hostnames := [], bmNodeFiles := [], errors := [e] } := rfl

/-- C6: a response that is not a listable collection — the abstract decoder
returns `none`, as it does when the path resolves to a single file and the
body is a JSON object, or has any unexpected shape — yields an EMPTY listing
and not a failure, in the Go client (`return nil, nil`) and in the TS client
(`catch { return [] }`); the TS client additionally maps even transport
failures to the empty listing. -/
theorem directoryListing_unlistable_is_empty
    (body : String) (decode : String → Option (List GiteaFile))
    (h : decode body = none) :
    getGiteaDirectoryListing (.ok body) decode = .ok [] ∧
    tsGetGiteaDirectoryListing (.ok body) decode = [] ∧
    ∀ e : String, tsGetGiteaDirectoryListing (.error e) decode = [] := by
  refine ⟨?_, ?_, fun e => rfl⟩ <;> simp [getGiteaDirectoryListing, tsGetGiteaDirectoryListing, h]

theorem directoryListing_unlistable_is_empty_witness :
    getGiteaDirectoryListing (.ok "a single-file object, not a JSON array") (fun _ => none)
      = .ok [] ∧
    tsGetGiteaDirectoryListing (.ok "a single-file object, not a JSON array") (fun _ => none)
      = [] ∧
    ∀ e : String, tsGetGiteaDirectoryListing (.error e) (fun _ => none) = [] :=
  directoryListing_unlistable_is_empty "a single-file object, not a JSON array"
    (fun _ => none) rfl

/-- Helper: the Go fetch on a non-200 response. -/
theorem fetchURL_non200 (url st b : String) {s : Nat} (hs : s ≠ 200) :
    fetchURL url (.response s st b)
      = .error ("HTTP " ++ toString s ++ ": " ++ st ++ " for " ++ url) := by
  have h : (s != 200) = true := by simpa [bne_iff_ne] using hs
  simp [fetchURL, h]

/-- C9: the Go fetch applies the configured 15-second client timeout
(`Timeout: 15 * time.Second`; the TS twin sets `request.setTimeout(15000)`),
and translates every non-success outcome into an error value: a transport
failure (connection error or timeout) propagates its message, a non-200
status becomes the descriptive `"HTTP <code>: <status> for <url>"` message,
and every outcome whatsoever produces either `.ok` or `.error` — never a
crash. -/
theorem fetchURL_failure_translation (url : String) (o : HttpOutcome) :
    goClientTimeoutSeconds = 15 ∧
    tsRequestTimeoutMillis = 15000 ∧
    (∀ msg, fetchURL url (.failure msg) = .error msg) ∧
    (∀ (s : Nat) (st b : String), s ≠ 200 →
      fetchURL url (.response s st b)
        = .error ("HTTP " ++ toString s ++ ": " ++ st ++ " for " ++ url)) ∧
    (∀ st b, fetchURL url (.response 200 st b) = .ok b) ∧
    ((∃ b, fetchURL url o = .ok b) ∨ (∃ e, fetchURL url o = .error e)) := by
  refine ⟨rfl, rfl, fun msg => rfl, ?_, fun st b => rfl, ?_⟩
  · intro s st b hs
    exact fetchURL_non200 url st b hs
  · cases o with
    | failure msg => exact Or.inr ⟨msg, rfl⟩
    | response s st b =>
      by_cases hs : s = 200
      · subst hs; exact Or.inl ⟨b, rfl⟩
      · exact Or.inr ⟨_, fetchURL_non200 url st b hs⟩

theorem fetchURL_failure_translation_witness :
    fetchURL "https://h/o/r/raw/branch/b/s/f.yaml" (.response 404 "Not Found" "")
      = .error ("HTTP " ++ toString 404 ++ ": " ++ "Not Found" ++ " for "
          ++ "https://h/o/r/raw/branch/b/s/f.yaml") :=
  (fetchURL_failure_translation "https://h/o/r/raw/branch/b/s/f.yaml"
      (.response 404 "Not Found" "")).2.2.2.1 404 "Not Found" "" (by decide)

/-- C5 counterexample: the Go Site Processor does NOT use a supplied direct
content locator.  For a matched file carrying
`download_url = some "https://direct.example/blob"`, the URL Go fetches is
the synthesized raw URL, not the direct locator, and with a fetch oracle
serving distinct contents at the two URLs the resulting record's hostname
comes from the synthesized URL's content. -/
theorem goFileURL_ignores_direct_locator :
    goFileURL "https://host/own/repo" "site1" "main"
        { name := "bm-node-a.yaml", type := "file",
          download_url := some "https://direct.example/blob" }
      = "https://host/own/repo/raw/branch/main/site1/bm-node-a.yaml" ∧
    goFileURL "https://host/own/repo" "site1" "main"
        { name := "bm-node-a.yaml", type := "file",
          download_url := some "https://direct.example/blob" }
      ≠ "https://direct.example/blob" ∧
    (processSiteDirectory
        (fun u => if u == "https://direct.example/blob"
          then .ok "bmac.agent-install.openshift.io/hostname: direct-host"
          else .ok "bmac.agent-install.openshift.io/hostname: raw-host")
        "https://host/own/repo" "site1" "main"
        (.ok [{ name := "bm-node-a.yaml", type := "file",
                download_url := some "https://direct.example/blob" }])).hostnames
      = ["raw-host"] := by
  refine ⟨by decide, by decide, by decide⟩

/-- C5 amended: only the TS Site Processor fetches via the direct locator
when one is supplied (synthesizing from `(tree root, path, ref)` only when it
is absent); the Go Site Processor always synthesizes the raw URL and ignores
any direct locator. -/
theorem fileUrl_locator_choice (repoUrl sitePath branch : String) (f : GiteaFile) :
    (∀ u, f.download_url = some u → tsFileUrl repoUrl sitePath branch f = u) ∧
    (f.download_url = none →
      tsFileUrl repoUrl sitePath branch f
        = constructRawURL repoUrl (sitePath ++ "/" ++ f.name) branch) ∧
    goFileURL repoUrl sitePath branch f
      = constructRawURL repoUrl (sitePath ++ "/" ++ f.name) branch := by
  refine ⟨?_, ?_, rfl⟩
  · intro u hu; simp [tsFileUrl, hu]
  · intro hn; simp [tsFileUrl, hn]

theorem fileUrl_locator_choice_witness :
    tsFileUrl "https://host/own/repo" "site1" "main"
        { name := "bm-node-a.yaml", type := "file",
          download_url := some "https://direct.example/blob" }
      = "https://direct.example/blob" :=
  (fileUrl_locator_choice "https://host/own/repo" "site1" "main"
      { name := "bm-node-a.yaml", type := "file",
        download_url := some "https://direct.example/blob" }).1
    "https://direct.example/blob" rfl

/-! ### Per-file outcome analysis of the Go Site Processor (C1) -/

/-- The hostname a matched file contributes, when its fetch succeeds and its
content carries the annotation. -/
def fileHostname (fetch : String → Except String String)
    (repoURL sitePath branch : String) (f : GiteaFile) : Option String :=
  match fetch (goFileURL repoURL sitePath branch f) with
  | .error _ => none
  | .ok content => extractHostnameFromContent content

/-- The error message a matched file contributes, when its fetch fails or its
content carries no annotation. -/
def fileErrorMsg (fetch : String → Except String String)
    (repoURL sitePath branch : String) (f : GiteaFile) : Option String :=
  match fetch (goFileURL repoURL sitePath branch f) with
  | .error e => some ("Error processing " ++ f.name ++ ": " ++ e)
  | .ok content =>
    match extractHostnameFromContent content with
    | some _ => none
    | none => some ("No hostname annotation found in " ++ f.name)

/-- The length of a `filterMap` is the number of elements on which the
partial function fires. -/
theorem length_filterMap_eq_length_filter_isSome {α β : Type} (g : α → Option β)
    (l : List α) :
    (l.filterMap g).length = (l.filter (fun x => (g x).isSome)).length := by
  induction l with
  | nil => rfl
  | cons x t ih => cases hg : g x <;> simp [List.filterMap_cons, List.filter_cons, hg, ih]

/-- Exactly one of the two per-file outcomes is produced, never both, never
neither. -/
theorem fileOutcome_exclusive (fetch : String → Except String String)
    (repoURL sitePath branch : String) (f : GiteaFile) :
    (fileHostname fetch repoURL sitePath branch f).isSome
      = !(fileErrorMsg fetch repoURL sitePath branch f).isSome := by
  unfold fileHostname fileErrorMsg
  cases fetch (goFileURL repoURL sitePath branch f) with
  | error e => rfl
  | ok content => cases hc : extractHostnameFromContent content <;> simp [hc]

/-- The Go per-file fold, fully characterized: names of matched files are
appended in listing order, and each matched file appends exactly its own
outcome to exactly one of the two outcome sequences. -/
theorem foldl_processFileStep (fetch : String → Except String String)
    (repoURL sitePath branch : String) (items : List GiteaFile)
    (si : SiteHostnameInfo) :
    items.foldl (processFileStep fetch repoURL sitePath branch) si
      = { si with
          bmNodeFiles :=
            si.bmNodeFiles ++ (items.filter isMatchedFile).map (fun f => f.name),
          hostnames :=
            si.hostnames
              ++ (items.filter isMatchedFile).filterMap
                  (fileHostname fetch repoURL sitePath branch),
          errors :=
            si.errors
              ++ (items.filter isMatchedFile).filterMap
                  (fileErrorMsg fetch repoURL sitePath branch) } := by
  induction items generalizing si with
  | nil => simp
  | cons f t ih =>
    by_cases hm : isMatchedFile f
    · rw [List.foldl_cons, ih]
      unfold processFileStep fileHostname fileErrorMsg
      rw [if_pos hm]
      cases hf : fetch (goFileURL repoURL sitePath branch f) with
      | error e => simp [List.filter_cons, hm, hf]
      | ok content =>
        cases hc : extractHostnameFromContent content with
        | none => simp [List.filter_cons, hm, hf, hc]
        | some h => simp [List.filter_cons, hm, hf, hc]
    · rw [List.foldl_cons, ih]
      unfold processFileStep
      rw [if_neg hm]
      simp [List.filter_cons, hm]

/-- C1: for a site directory whose listing succeeds with `N` matched files of
which `K` fail (fetch failure or absent annotation), the record has exactly
`N − K` hostnames, exactly `K` errors, and exactly `N` entries in
`bmNodeFiles` (the matched-file names in listing order); every matched file
contributes exactly one outcome — a hostname or an error — never both, never
neither (the `hostnames`/`errors` sequences are precisely the per-file
outcomes, and their lengths always sum to `N`). -/
theorem processSiteDirectory_outcome_counts (fetch : String → Except String String)
    (repoURL sitePath branch : String) (items : List GiteaFile) :
    (processSiteDirectory fetch repoURL sitePath branch (.ok items)).bmNodeFiles
        = (items.filter isMatchedFile).map (fun f => f.name) ∧
    (processSiteDirectory fetch repoURL sitePath branch (.ok items)).hostnames
        = (items.filter isMatchedFile).filterMap
            (fileHostname fetch repoURL sitePath branch) ∧
    (processSiteDirectory fetch repoURL sitePath branch (.ok items)).errors
        = (items.filter isMatchedFile).filterMap
            (fileErrorMsg fetch repoURL sitePath branch) ∧
    (processSiteDirectory fetch repoURL sitePath branch (.ok items)).hostnames.length
        = ((items.filter isMatchedFile).filter
            (fun f => (fileHostname fetch repoURL sitePath branch f).isSome)).length ∧
    (processSiteDirectory fetch repoURL sitePath branch (.ok items)).errors.length
        = ((items.filter isMatchedFile).filter
            (fun f => !(fileHostname fetch repoURL sitePath branch f).isSome)).length ∧
    (processSiteDirectory fetch repoURL sitePath branch (.ok items)).hostnames.length
        + (processSiteDirectory fetch repoURL sitePath branch (.ok items)).errors.length
        = (processSiteDirectory fetch repoURL sitePath branch (.ok items)).bmNodeFiles.length := by
  have hfold := foldl_processFileStep fetch repoURL sitePath branch items
    { sitePath := sitePath, hostnames := [], bmNodeFiles := [], errors := [] }
  have hdef : processSiteDirectory fetch repoURL sitePath branch (.ok items)
      = items.foldl (processFileStep fetch repoURL sitePath branch)
          { sitePath := sitePath, hostnames := [], bmNodeFiles := [], errors := [] } := rfl
  have hres : processSiteDirectory fetch repoURL sitePath branch (.ok items)
      = { sitePath := sitePath,
          hostnames := (items.filter isMatchedFile).filterMap
            (fileHostname fetch repoURL sitePath branch),
          bmNodeFiles := (items.filter isMatchedFile).map (fun f => f.name),
          errors := (items.filter isMatchedFile).filterMap
            (fileErrorMsg fetch repoURL sitePath branch) } := by
    rw [hdef, hfold]
    simp
  rw [hres]
  have herr : ((items.filter isMatchedFile).filterMap
        (fileErrorMsg fetch repoURL sitePath branch)).length
      = ((items.filter isMatchedFile).filter
          (fun f => !(fileHostname fetch repoURL sitePath branch f).isSome)).length := by
    rw [length_filterMap_eq_length_filter_isSome]
    congr 1
    apply List.filter_congr
    intro f _
    rw [fileOutcome_exclusive, Bool.not_not]
  refine ⟨rfl, rfl, rfl, length_filterMap_eq_length_filter_isSome _ _, herr, ?_⟩
  rw [length_filterMap_eq_length_filter_isSome, herr, List.length_map]
  exact (List.length_eq_length_filter_add
    (fun f => (fileHostname fetch repoURL sitePath branch f).isSome)).symm

/-! ### Behaviour of the hostname extractor (C4) -/

/-- A quote character is not whitespace. -/
theorem quote_not_space {q : Char} (hq : isQuoteChar q = true) : isSpaceChar q = false := by
  simp only [isQuoteChar, Bool.or_eq_true, beq_iff_eq] at hq
  rcases hq with h | h <;> subst h <;> decide

/-- A quote character is not a value character. -/
theorem quote_not_value {q : Char} (hq : isQuoteChar q = true) : isValueChar q = false := by
  simp [isValueChar, hq]

/-- A value character is neither a quote nor whitespace. -/
theorem value_not_space {c : Char} (hc : isValueChar c = true) : isSpaceChar c = false := by
  simp only [isValueChar, Bool.and_eq_true, Bool.not_eq_true'] at hc
  exact hc.2

/-- `dropWhile` passes over an all-whitespace block. -/
theorem dropWhile_space_append {ws rest : List Char} (h : ws.all isSpaceChar = true) :
    (ws ++ rest).dropWhile isSpaceChar = rest.dropWhile isSpaceChar := by
  induction ws with
  | nil => rfl
  | cons c t ih =>
    simp only [List.all_cons, Bool.and_eq_true] at h
    simp [List.dropWhile_cons, h.1, ih h.2]

/-- `takeWhile` captures exactly an all-value block followed by a non-value
head (or nothing). -/
theorem takeWhile_value_append {v rest : List Char} (hv : v.all isValueChar = true)
    (hrest : rest.headD squote ≠ squote → isValueChar (rest.headD squote) = false) :
    (v ++ rest).takeWhile isValueChar = v := by
  induction v with
  | nil =>
    cases rest with
    | nil => rfl
    | cons c cs =>
      by_cases hc : c = squote
      · subst hc; simp [List.takeWhile_cons]; decide
      · have := hrest (by simpa using hc)
        simp only [List.headD_cons] at this
        simp [List.takeWhile_cons, this]
  | cons c t ih =>
    simp only [List.all_cons, Bool.and_eq_true] at hv
    simp [List.takeWhile_cons, hv.1, ih hv.2]

/-- Head of a list is not a value character (used for the unquoted variant:
capture must stop right after the value). -/
def headNotValue (l : List Char) : Bool :=
  match l with
  | [] => true
  | c :: _ => !(isValueChar c)

/-- `matchAfterKey` on a quoted value: `\s*` then a quote, the value, a
closing quote and anything after — the capture is exactly the value. -/
theorem matchAfterKey_quoted {ws v post : List Char} {q : Char}
    (hq : isQuoteChar q = true) (hws : ws.all isSpaceChar = true)
    (hv0 : v ≠ []) (hv : v.all isValueChar = true) :
    matchAfterKey (ws ++ q :: (v ++ q :: post)) = some v := by
  unfold matchAfterKey
  rw [dropWhile_space_append hws]
  rw [List.dropWhile_cons]
  rw [quote_not_space hq]
  simp only [Bool.false_eq_true, if_false, hq, if_true]
  have htake : (v ++ q :: post).takeWhile isValueChar = v := by
    apply takeWhile_value_append hv
    intro _
    simp only [List.headD_cons]
    exact quote_not_value hq
  rw [htake]
  cases v with
  | nil => exact absurd rfl hv0
  | cons c cs => rfl

/-- `matchAfterKey` on an unquoted value: `\s*` then the value and a
non-value continuation — the capture is exactly the value. -/
theorem matchAfterKey_unquoted {ws v post : List Char}
    (hws : ws.all isSpaceChar = true) (hv0 : v ≠ []) (hv : v.all isValueChar = true)
    (hpost : headNotValue post = true) :
    matchAfterKey (ws ++ (v ++ post)) = some v := by
  cases v with
  | nil => exact absurd rfl hv0
  | cons c cs =>
    simp only [List.all_cons, Bool.and_eq_true] at hv
    unfold matchAfterKey
    rw [dropWhile_space_append hws]
    rw [List.cons_append, List.dropWhile_cons, value_not_space hv.1]
    simp only [Bool.false_eq_true, if_false]
    have hcq : isQuoteChar c = false := by
      have := hv.1
      simp only [isValueChar, Bool.and_eq_true, Bool.not_eq_true'] at this
      exact this.1
    rw [hcq]
    simp only [Bool.false_eq_true, if_false]
    have htake : ((c :: cs) ++ post).takeWhile isValueChar = c :: cs := by
      apply takeWhile_value_append (by simp [hv.1, hv.2])
      intro hne
      cases post with
      | nil => simp at hne
      | cons d ds =>
        simp only [headNotValue, Bool.not_eq_true'] at hpost
        simpa using hpost
    rw [List.cons_append] at htake
    rw [htake]

/-- Lemma: `isPrefixOf` holds on an extension of the same list. -/
theorem isPrefixOf_append_self (l t : List Char) : l.isPrefixOf (l ++ t) = true := by
  induction l with
  | nil => simp [List.isPrefixOf]
  | cons c cs ih => simp [List.isPrefixOf, ih]

/-- Scanner step: a head that does not start the key is skipped. -/
theorem extractAux_cons_not_key {c : Char} {t : List Char}
    (h : hostnameKey.isPrefixOf (c :: t) = false) :
    extractHostnameAux (c :: t) = extractHostnameAux t := by
  simp [extractHostnameAux, h]

/-- Scanner step: a position where the whole pattern matches yields the
capture. -/
theorem extractAux_key_found {t v : List Char} (h : matchAfterKey t = some v) :
    extractHostnameAux (hostnameKey ++ t) = some v := by
  have hpre : hostnameKey.isPrefixOf (hostnameKey ++ t) = true := isPrefixOf_append_self _ _
  have hdrop : (hostnameKey ++ t).drop hostnameKey.length = t := List.drop_left _ _
  obtain ⟨c, cs, hk⟩ : ∃ c cs, hostnameKey ++ t = c :: cs := by
    cases hkey : hostnameKey with
    | nil => exact absurd hkey (by decide)
    | cons a as => exact ⟨a, as ++ t, by simp [hkey]⟩
  rw [hk] at hpre hdrop ⊢
  simp only [extractHostnameAux]
  simp [hpre, hdrop, h]

/-- No nonempty suffix of `p` starts the key when continued by `rest`
(rules out matches straddling the `p`/`rest` boundary or inside `p`);
executable, so concrete instances close by `decide`. -/
def keyClearAt : List Char → List Char → Bool
  | [], _ => true
  | c :: t, rest => !(hostnameKey.isPrefixOf ((c :: t) ++ rest)) && keyClearAt t rest

/-- The scanner passes over a block that contains no key start. -/
theorem extractAux_append_of_clear {p rest : List Char} (h : keyClearAt p rest = true) :
    extractHostnameAux (p ++ rest) = extractHostnameAux rest := by
  induction p with
  | nil => rfl
  | cons c t ih =>
    simp only [keyClearAt, Bool.and_eq_true, Bool.not_eq_true'] at h
    rw [List.cons_append, extractAux_cons_not_key (by rw [← List.cons_append]; exact h.1)]
    exact ih h.2

/-- Executable check that the key occurs nowhere in the content. -/
def containsKey : List Char → Bool
  | [] => false
  | c :: t => hostnameKey.isPrefixOf (c :: t) || containsKey t

/-- Content without the literal key yields no match. -/
theorem extractAux_none_of_no_key {c : List Char} (h : containsKey c = false) :
    extractHostnameAux c = none := by
  induction c with
  | nil => rfl
  | cons x t ih =>
    simp only [containsKey, Bool.or_eq_false_iff] at h
    rw [extractAux_cons_not_key h.1]
    exact ih h.2

/-- C4: the extractor returns the value captured at the first occurrence of
the full pattern — the literal key, optional whitespace, an optional quote, a
maximal run of one or more non-whitespace/non-quote characters, an optional
closing quote.  The double-quoted, single-quoted (any `q` with
`isQuoteChar q`), and unquoted variants of the same value all yield that
value; everything after the captured value (`post`/`upost`), including any
later occurrence of the pattern, is ignored; and content with no key line
yields `none` — the function is total, never a failure. -/
theorem extractHostname_first_match_spec
    (pre ws v post upost : List Char) (q : Char)
    (hq : isQuoteChar q = true)
    (hws : ws.all isSpaceChar = true)
    (hv0 : v ≠ []) (hv : v.all isValueChar = true)
    (hupost : headNotValue upost = true)
    (hclear1 : keyClearAt pre (hostnameKey ++ (ws ++ q :: (v ++ q :: post))) = true)
    (hclear2 : keyClearAt pre (hostnameKey ++ (ws ++ (v ++ upost))) = true) :
    extractHostnameAux (pre ++ (hostnameKey ++ (ws ++ q :: (v ++ q :: post)))) = some v ∧
    extractHostnameAux (pre ++ (hostnameKey ++ (ws ++ (v ++ upost)))) = some v ∧
    ∀ c : List Char, containsKey c = false → extractHostnameAux c = none := by
  refine ⟨?_, ?_, fun c hc => extractAux_none_of_no_key hc⟩
  · rw [extractAux_append_of_clear hclear1]
    exact extractAux_key_found (matchAfterKey_quoted hq hws hv0 hv)
  · rw [extractAux_append_of_clear hclear2]
    exact extractAux_key_found (matchAfterKey_unquoted hws hv0 hv hupost)

/-- Witness for C4 at a concrete annotated content: prefix text, the key, and
`"example.com"` quoted/unquoted; the unquoted variant is followed by a later
second occurrence of the key, which is ignored. -/
theorem extractHostname_first_match_spec_witness :
    extractHostnameAux
        (("x: y\n  ".toList) ++ (hostnameKey ++ ((" ".toList)
          ++ '"' :: ("example.com".toList ++ '"' :: "\nz: w\n".toList)))) = some "example.com".toList ∧
    extractHostnameAux
        (("x: y\n  ".toList) ++ (hostnameKey ++ ((" ".toList)
          ++ ("example.com".toList
              ++ "\nbmac.agent-install.openshift.io/hostname: other\n".toList))))
      = some "example.com".toList ∧
    ∀ c : List Char, containsKey c = false → extractHostnameAux c = none :=
  extractHostname_first_match_spec "x: y\n  ".toList " ".toList "example.com".toList
    "\nz: w\n".toList "\nbmac.agent-install.openshift.io/hostname: other\n".toList '"'
    (by decide) (by decide) (by decide) (by decide) (by decide) (by decide) (by decide)

/-! ### Coordinator invariants: wait-group discipline and termination -/

mutual

/-- Size of a snapshot subtree (for the termination measure). -/
def sizeFS : FSNode → Nat
  | .fail _ => 1
  | .dir ch => 1 + sizeChildren ch

/-- Total size of a children list. -/
def sizeChildren : List (GiteaFile × FSNode) → Nat
  | [] => 0
  | c :: t => sizeFS c.2 + sizeChildren t

end

/-- Total size of the subtrees of a task list. -/
def taskWeight : List Task → Nat
  | [] => 0
  | tk :: t => sizeFS tk.node + taskWeight t

theorem taskWeight_append (a b : List Task) :
    taskWeight (a ++ b) = taskWeight a + taskWeight b := by
  induction a with
  | nil => simp [taskWeight]
  | cons tk t ih => simp [taskWeight, ih, Nat.add_assoc]

theorem taskWeight_filterMap_le (ch : List (GiteaFile × FSNode))
    (g : GiteaFile × FSNode → Option Task)
    (hg : ∀ c tk, g c = some tk → tk.node = c.2) :
    taskWeight (ch.filterMap g) ≤ sizeChildren ch := by
  induction ch with
  | nil => exact Nat.le_refl 0
  | cons c t ih =>
    rw [List.filterMap_cons]
    cases hgc : g c with
    | none =>
      exact Nat.le_trans ih (Nat.le_add_left _ _)
    | some tk =>
      have hnode : tk.node = c.2 := hg c tk hgc
      show sizeFS tk.node + taskWeight (t.filterMap g) ≤ sizeFS c.2 + sizeChildren t
      rw [hnode]
      exact Nat.add_le_add_left ih _

/-- Every branch spawns strictly less total subtree weight than its own node:
the walk's total outstanding work shrinks with every branch step. -/
theorem spawns_weight_lt (cfg : Gcfg) (root : FSNode) (tk : Task) :
    taskWeight (branchSpawns cfg root tk) < sizeFS tk.node := by
  unfold branchSpawns
  cases hn : tk.node with
  | fail m => simp [taskWeight, sizeFS]
  | dir ch =>
    have hle : taskWeight (ch.filterMap (fun c =>
        if c.1.type == "dir" then
          some { path := childPathOf tk.path c.1.name, node := c.2,
                 origin := if isSiteDirectory (ch.map (fun c => c.1)) then
                     some (branchRecord cfg root tk.path)
                   else tk.origin }
        else none)) ≤ sizeChildren ch := by
      apply taskWeight_filterMap_le
      intro c tk' h
      by_cases hc : (c.1.type == "dir") = true
      · rw [if_pos hc] at h
        cases h
        rfl
      · rw [if_neg hc] at h
        cases h
    calc taskWeight (ch.filterMap _) ≤ sizeChildren ch := hle
      _ < sizeFS (FSNode.dir ch) := by
        rw [show sizeFS (FSNode.dir ch) = 1 + sizeChildren ch from rfl]
        omega

/-- Decreasing measure of a run state: outstanding subtree weight, plus one
for the still-open channel. -/
def engMeasure (s : EngineState) : Nat :=
  taskWeight s.tasks + (if s.closed then 0 else 1)

/-- The coordinator's invariant: the wait-group counter equals the number of
outstanding branches (`wg.Add(1)` before every spawn, `defer wg.Done()` at
branch end), and once the channel is closed no branch is outstanding and the
close event terminates the trace. -/
def Inv (s : EngineState) : Prop :=
  s.counter = s.tasks.length ∧
  (s.closed = true → s.tasks = [] ∧ ∃ tr, s.trace = tr ++ [Event.close])

theorem inv_initState (root : FSNode) : Inv (initState root) := by
  constructor
  · rfl
  · intro h
    simp [initState] at h

theorem inv_step {cfg : Gcfg} {root : FSNode} {s s' : EngineState}
    (hst : Step cfg root s s') (hs : Inv s) : Inv s' := by
  cases hst with
  | branch pre post tk c tr =>
    obtain ⟨hc, -⟩ := hs
    refine ⟨?_, by intro h; simp at h⟩
    simp only [List.length_append, List.length_cons] at hc ⊢
    omega
  | close ts tr =>
    obtain ⟨hc, -⟩ := hs
    refine ⟨hc, fun _ => ⟨?_, tr, rfl⟩⟩
    have : ts.length = 0 := by
      simp only at hc
      omega
    exact List.length_eq_zero.mp this

theorem inv_reaches {cfg : Gcfg} {root : FSNode} {s s' : EngineState}
    (h : Reaches cfg root s s') (hs : Inv s) : Inv s' := by
  induction h with
  | refl => exact hs
  | tail hab hbc ih => exact inv_step hbc ih

theorem step_measure_decreases {cfg : Gcfg} {root : FSNode} {s s' : EngineState}
    (hst : Step cfg root s s') : engMeasure s' < engMeasure s := by
  cases hst with
  | branch pre post tk c tr =>
    have h1 := spawns_weight_lt cfg root tk
    have h2 : taskWeight (pre ++ tk :: post)
        = taskWeight pre + (sizeFS tk.node + taskWeight post) := by
      rw [taskWeight_append]
      rfl
    have h3 : taskWeight (pre ++ post ++ branchSpawns cfg root tk)
        = taskWeight pre + taskWeight post + taskWeight (branchSpawns cfg root tk) := by
      rw [taskWeight_append, taskWeight_append]
    simp only [engMeasure, h2, h3]
    omega
  | close ts tr =>
    simp [engMeasure]

/-- From any state satisfying the invariant, every schedule can be extended
to a final state: channel closed, no branch outstanding, close event last. -/
theorem reaches_closed_of_inv (cfg : Gcfg) (root : FSNode) :
    ∀ (n : Nat) (s : EngineState), Inv s → engMeasure s ≤ n →
      ∃ s', Reaches cfg root s s' ∧ s'.closed = true ∧ s'.tasks = [] ∧
        ∃ tr, s'.trace = tr ++ [Event.close] := by
  intro n
  induction n with
  | zero =>
    rintro ⟨ts, c, tr, cl⟩ hs hm
    cases cl with
    | true => exact ⟨_, Relation.ReflTransGen.refl, rfl, (hs.2 rfl).1, (hs.2 rfl).2⟩
    | false => simp [engMeasure] at hm
  | succ n ih =>
    rintro ⟨ts, c, tr, cl⟩ hs hm
    cases cl with
    | true => exact ⟨_, Relation.ReflTransGen.refl, rfl, (hs.2 rfl).1, (hs.2 rfl).2⟩
    | false =>
      cases ts with
      | nil =>
        have hc0 : c = 0 := by simpa using hs.1
        subst hc0
        exact ⟨⟨[], 0, tr ++ [Event.close], true⟩,
          Relation.ReflTransGen.single (Step.close [] tr), rfl, rfl, tr, rfl⟩
      | cons tk rest =>
        have hstep : Step cfg root ⟨tk :: rest, c, tr, false⟩
            ⟨[] ++ rest ++ branchSpawns cfg root tk,
             c + (branchSpawns cfg root tk).length - 1,
             tr ++ branchPublishes cfg root tk, false⟩ := Step.branch [] rest tk c tr
        have hinv2 := inv_step hstep hs
        have hm2 : engMeasure ⟨[] ++ rest ++ branchSpawns cfg root tk,
            c + (branchSpawns cfg root tk).length - 1,
            tr ++ branchPublishes cfg root tk, false⟩ ≤ n := by
          have hd := step_measure_decreases hstep
          omega
        obtain ⟨s', hr, h1, h2, h3⟩ := ih _ hinv2 hm2
        exact ⟨s', Relation.ReflTransGen.head hstep hr, h1, h2, h3⟩

/-- C2: from any reachable state of a run, (a) if the result channel is
closed then no spawned branch — root or transitively spawned, including
branches registered while others were running — is outstanding, and the
close event ends the trace; and (b) the run can always be extended to a
state where all branches have completed and the channel HAS been closed,
exactly once, as the final event.  Together: the coordinator closes the
channel after every branch completes, and only then. -/
theorem coordinator_close_discipline (cfg : Gcfg) (root : FSNode) (s : EngineState)
    (h : Reaches cfg root (initState root) s) :
    (s.closed = true → s.tasks = [] ∧ ∃ tr, s.trace = tr ++ [Event.close]) ∧
    (∃ s', Reaches cfg root s s' ∧ s'.closed = true ∧ s'.tasks = [] ∧
      ∃ tr, s'.trace = tr ++ [Event.close]) := by
  have hinv := inv_reaches h (inv_initState root)
  exact ⟨hinv.2, reaches_closed_of_inv cfg root (engMeasure s) s hinv (Nat.le_refl _)⟩

theorem coordinator_close_discipline_witness :
    ((initState (FSNode.fail "down")).closed = true →
      (initState (FSNode.fail "down")).tasks = [] ∧
      ∃ tr, (initState (FSNode.fail "down")).trace = tr ++ [Event.close]) ∧
    (∃ s', Reaches ⟨fun _ => Except.error "down", "https://h/o/r", "b"⟩
        (FSNode.fail "down") (initState (FSNode.fail "down")) s' ∧
      s'.closed = true ∧ s'.tasks = [] ∧ ∃ tr, s'.trace = tr ++ [Event.close]) :=
  coordinator_close_discipline ⟨fun _ => Except.error "down", "https://h/o/r", "b"⟩
    (FSNode.fail "down") (initState (FSNode.fail "down")) Relation.ReflTransGen.refl

/-- Inversion of one scheduler step: either some outstanding branch ran, or
the coordinator closed the channel at counter zero. -/
theorem step_inversion {cfg : Gcfg} {root : FSNode} {s s' : EngineState}
    (h : Step cfg root s s') :
    (∃ pre post tk, s.tasks = pre ++ tk :: post ∧ s.closed = false ∧
      s' = ⟨pre ++ post ++ branchSpawns cfg root tk,
            s.counter + (branchSpawns cfg root tk).length - 1,
            s.trace ++ branchPublishes cfg root tk, false⟩) ∨
    (s.counter = 0 ∧ s.closed = false ∧
      s' = ⟨s.tasks, 0, s.trace ++ [Event.close], true⟩) := by
  cases h with
  | branch pre post tk c tr => exact Or.inl ⟨pre, post, tk, rfl, rfl, rfl⟩
  | close ts tr => exact Or.inr ⟨rfl, rfl, rfl⟩

/-- Splitting a singleton around a distinguished element. -/
theorem singleton_eq_append_cons {α : Type} {x tk : α} {pre post : List α}
    (h : [x] = pre ++ tk :: post) : pre = [] ∧ tk = x ∧ post = [] := by
  cases pre with
  | nil =>
    have h' := h.symm
    rw [List.nil_append] at h'
    injection h' with h1 h2
    exact ⟨rfl, h1, h2⟩
  | cons a b =>
    rw [List.cons_append] at h
    injection h with h1 h2
    exact absurd h2.symm (by simp)

/-- When the root listing fails, the reachable states of the run are exactly:
the initial state, the state after the root branch dies, and the closed final
state. -/
theorem failed_root_reachable_states {cfg : Gcfg} {m : String} {s : EngineState}
    (h : Reaches cfg (FSNode.fail m) (initState (FSNode.fail m)) s) :
    s = initState (FSNode.fail m) ∨
    s = ⟨[], 0, [], false⟩ ∨
    s = ⟨[], 0, [Event.close], true⟩ := by
  induction h with
  | refl => exact Or.inl rfl
  | tail hab hbc ih =>
    rcases ih with h1 | h1 | h1 <;> subst h1 <;>
      rcases step_inversion hbc with ⟨pre, post, tk, htasks, hcl, hs'⟩ | ⟨hc0, hcl, hs'⟩
    · rw [show (initState (FSNode.fail m)).tasks
          = [⟨"", FSNode.fail m, none⟩] from rfl] at htasks
      obtain ⟨hp1, hp2, hp3⟩ := singleton_eq_append_cons htasks
      subst hp1; subst hp2; subst hp3
      right; left
      exact hs'
    · exact absurd hc0 (by simp [initState])
    · simp at htasks
    · right; right
      exact hs'
    · exact absurd hcl (by simp)
    · exact absurd hcl (by simp)

/-- C7: when the listing of the root path fails, every schedule of the run
publishes no `SiteRecord` at all, and the run still reaches a clean final
state — all branches done, channel closed, exactly the end-of-stream event
delivered.  No reachable state hangs or crashes. -/
theorem root_listing_failure_clean_run (cfg : Gcfg) (m : String) (s : EngineState)
    (h : Reaches cfg (FSNode.fail m) (initState (FSNode.fail m)) s) :
    (∀ r, Event.publish r ∉ s.trace) ∧
    ∃ s', Reaches cfg (FSNode.fail m) s s' ∧ s'.closed = true ∧ s'.tasks = [] ∧
      s'.trace = [Event.close] := by
  have st1 : Step cfg (FSNode.fail m) (initState (FSNode.fail m)) ⟨[], 0, [], false⟩ :=
    Step.branch [] [] ⟨"", FSNode.fail m, none⟩ 1 []
  have st2 : Step cfg (FSNode.fail m) ⟨[], 0, [], false⟩ ⟨[], 0, [Event.close], true⟩ :=
    Step.close [] []
  rcases failed_root_reachable_states h with h1 | h1 | h1 <;> subst h1
  · exact ⟨by intro r hr; simp [initState] at hr,
      ⟨[], 0, [Event.close], true⟩,
      Relation.ReflTransGen.head st1 (Relation.ReflTransGen.single st2), rfl, rfl, rfl⟩
  · exact ⟨by intro r hr; simp at hr,
      ⟨[], 0, [Event.close], true⟩, Relation.ReflTransGen.single st2, rfl, rfl, rfl⟩
  · exact ⟨by intro r hr; simp at hr,
      ⟨[], 0, [Event.close], true⟩, Relation.ReflTransGen.refl, rfl, rfl, rfl⟩

theorem root_listing_failure_clean_run_witness :
    (∀ r, Event.publish r ∉ (initState (FSNode.fail "HTTP 500: oops")).trace) ∧
    ∃ s', Reaches ⟨fun _ => Except.error "HTTP 500: oops", "https://h/o/r", "prod"⟩
        (FSNode.fail "HTTP 500: oops") (initState (FSNode.fail "HTTP 500: oops")) s' ∧
      s'.closed = true ∧ s'.tasks = [] ∧ s'.trace = [Event.close] :=
  root_listing_failure_clean_run
    ⟨fun _ => Except.error "HTTP 500: oops", "https://h/o/r", "prod"⟩ "HTTP 500: oops"
    (initState (FSNode.fail "HTTP 500: oops")) Relation.ReflTransGen.refl

/-- C8: in every reachable state of a run, every outstanding branch that was
spawned under a site directory (directly or transitively — its ghost `origin`
carries that directory's record) can only exist AFTER the site's record was
published: the record is already in the channel trace.  Publication of a site
record therefore precedes the spawning of, the recursion into, and any event
produced by that directory's child directories. -/
theorem site_record_published_before_children (cfg : Gcfg) (root : FSNode)
    (s : EngineState) (h : Reaches cfg root (initState root) s) :
    ∀ tk ∈ s.tasks, ∀ r, tk.origin = some r → Event.publish r ∈ s.trace := by
  induction h with
  | refl =>
    intro tk hmem r hr
    have : tk = ⟨"", root, none⟩ := by simpa [initState] using hmem
    subst this
    simp at hr
  | tail hab hbc ih =>
    cases hbc with
    | branch pre post tk0 c tr =>
      intro tk hmem r hr
      rw [List.mem_append] at hmem
      rcases hmem with hmem | hmem
      · have hmem' : tk ∈ pre ++ tk0 :: post := by
          rw [List.mem_append] at hmem ⊢
          rcases hmem with hx | hx
          · exact Or.inl hx
          · exact Or.inr (List.mem_cons_of_mem _ hx)
        exact List.mem_append_left _ (ih tk hmem' r hr)
      · obtain ⟨p0, n0, o0⟩ := tk0
        cases n0 with
        | fail mm => simp [branchSpawns] at hmem
        | dir ch =>
          simp only [branchSpawns, List.mem_filterMap] at hmem
          obtain ⟨cpair, hcp, hif⟩ := hmem
          by_cases hdir : (cpair.1.type == "dir") = true
          · rw [if_pos hdir] at hif
            injection hif with hif
            subst hif
            by_cases hsite : isSiteDirectory (ch.map (fun c => c.1)) = true
            · rw [if_pos hsite] at hr
              simp only at hr
              injection hr with hr
              subst hr
              apply List.mem_append_right
              simp [branchPublishes, hsite]
            · rw [if_neg hsite] at hr
              simp only at hr
              have : Task.origin ⟨p0, FSNode.dir ch, o0⟩ = some r := hr
              have hmem0 : (⟨p0, FSNode.dir ch, o0⟩ : Task) ∈ pre ++ ⟨p0, FSNode.dir ch, o0⟩ :: post :=
                List.mem_append_right _ (List.mem_cons_self _ _)
              exact List.mem_append_left _ (ih _ hmem0 r this)
          · rw [if_neg hdir] at hif
            cases hif
    | close ts tr =>
      intro tk hmem r hr
      exact List.mem_append_left _ (ih tk hmem r hr)

theorem site_record_published_before_children_witness :
    Event.publish
        (branchRecord ⟨fun _ => Except.error "net", "https://h/o/r", "b"⟩
          (FSNode.dir
            [({ name := "bm-node-a.yaml", type := "file", download_url := none }, FSNode.dir []),
             ({ name := "d", type := "dir", download_url := none }, FSNode.dir [])]) "")
      ∈ (⟨[⟨"d", FSNode.dir [],
              some (branchRecord ⟨fun _ => Except.error "net", "https://h/o/r", "b"⟩
                (FSNode.dir
                  [({ name := "bm-node-a.yaml", type := "file", download_url := none }, FSNode.dir []),
                   ({ name := "d", type := "dir", download_url := none }, FSNode.dir [])]) "")⟩],
            1,
            [Event.publish
              (branchRecord ⟨fun _ => Except.error "net", "https://h/o/r", "b"⟩
                (FSNode.dir
                  [({ name := "bm-node-a.yaml", type := "file", download_url := none }, FSNode.dir []),
                   ({ name := "d", type := "dir", download_url := none }, FSNode.dir [])]) "")],
            false⟩ : EngineState).trace :=
  site_record_published_before_children
    ⟨fun _ => Except.error "net", "https://h/o/r", "b"⟩
    (FSNode.dir
      [({ name := "bm-node-a.yaml", type := "file", download_url := none }, FSNode.dir []),
       ({ name := "d", type := "dir", download_url := none }, FSNode.dir [])])
    _
    (Relation.ReflTransGen.single
      (Step.branch [] []
        ⟨"", FSNode.dir
          [({ name := "bm-node-a.yaml", type := "file", download_url := none }, FSNode.dir []),
           ({ name := "d", type := "dir", download_url := none }, FSNode.dir [])], none⟩ 1 []))
    ⟨"d", FSNode.dir [],
      some (branchRecord ⟨fun _ => Except.error "net", "https://h/o/r", "b"⟩
        (FSNode.dir
          [({ name := "bm-node-a.yaml", type := "file", download_url := none }, FSNode.dir []),
           ({ name := "d", type := "dir", download_url := none }, FSNode.dir [])]) "")⟩
    (List.Mem.head _) _ rfl

/-! ### The `"root"` sentinel is not reserved (C10) -/

/-- Fetch oracle for the collision scenario: every file content carries the
annotation `h1`. -/
def c10fetch : String → Except String String :=
  fun _ => .ok "bmac.agent-install.openshift.io/hostname: h1"

/-- Run parameters for the collision scenario. -/
def c10cfg : Gcfg := ⟨c10fetch, "https://h/o/r", "b"⟩

/-- A top-level subdirectory literally named `root` that is itself a site. -/
def c10sub : FSNode :=
  .dir [({ name := "bm-node-y.yaml", type := "file", download_url := none }, .dir [])]

/-- A tree whose root is a site and which contains a top-level subdirectory
literally named `root` that is also a site. -/
def c10tree : FSNode :=
  .dir [({ name := "bm-node-x.yaml", type := "file", download_url := none }, .dir []),
        ({ name := "root", type := "dir", download_url := none }, c10sub)]

/-- The record the Go engine publishes for the tree root (path key `root`). -/
def c10rec : SiteHostnameInfo := branchRecord c10cfg c10tree ""

/-- The record the Go engine publishes for the subdirectory named `root`. -/
def c10rec2 : SiteHostnameInfo := branchRecord c10cfg c10tree "root"

/-- The TS record for the tree root (note: its `sitePath` is the empty
current path; only its MAP KEY is the sentinel `root`). -/
def c10tsRec1 : SiteHostnameInfo :=
  tsProcessSiteDirectory c10fetch "https://h/o/r" "" "b" (tsListingAt c10tree "")

/-- The TS record for the subdirectory named `root`. -/
def c10tsRec2 : SiteHostnameInfo :=
  tsProcessSiteDirectory c10fetch "https://h/o/r" "root" "b" (tsListingAt c10tree "root")

/-- C10: the sentinel path value `root` is not reserved.  On a tree with a
top-level subdirectory literally named `root` that is itself a site: the Go
engine has an execution publishing two records whose `sitePath` is `root`
each — the root directory's record and the subdirectory's record are
indistinguishable by path (here even equal, because the Go processor re-lists
its path KEY, which for the tree root resolves to the subdirectory named
`root`); the two path keys collide (`pathKeyOf`/`tsSiteKey` map `""` and
`"root"` to the same key); and in the map-accumulating TS implementation the
subdirectory's record overwrites the root directory's record under the
shared key `root` — the final map holds one entry, the subdirectory's,
although the root's distinct record had been inserted first. -/
theorem root_sentinel_collision :
    (∃ s : EngineState,
      Reaches c10cfg c10tree (initState c10tree) s ∧
      s.trace = [Event.publish c10rec, Event.publish c10rec2, Event.close]) ∧
    c10rec.sitePath = "root" ∧
    c10rec2.sitePath = "root" ∧
    c10rec = c10rec2 ∧
    pathKeyOf "" = pathKeyOf "root" ∧
    tsSiteKey "" = tsSiteKey "root" ∧
    mapSet [] (tsSiteKey "") c10tsRec1 = [("root", c10tsRec1)] ∧
    tsExtractHostnamesFromGiteaRepository c10fetch "https://h/o/r" "b" c10tree
      = [("root", c10tsRec2)] ∧
    c10tsRec1 ≠ c10tsRec2 := by
  have st1 : Step c10cfg c10tree (initState c10tree)
      ⟨[⟨"root", c10sub, some c10rec⟩], 1, [Event.publish c10rec], false⟩ :=
    Step.branch [] [] ⟨"", c10tree, none⟩ 1 []
  have st2 : Step c10cfg c10tree
      ⟨[⟨"root", c10sub, some c10rec⟩], 1, [Event.publish c10rec], false⟩
      ⟨[], 0, [Event.publish c10rec, Event.publish c10rec2], false⟩ :=
    Step.branch [] [] ⟨"root", c10sub, some c10rec⟩ 1 [Event.publish c10rec]
  have st3 : Step c10cfg c10tree
      ⟨[], 0, [Event.publish c10rec, Event.publish c10rec2], false⟩
      ⟨[], 0, [Event.publish c10rec, Event.publish c10rec2, Event.close], true⟩ :=
    Step.close [] [Event.publish c10rec, Event.publish c10rec2]
  refine ⟨⟨⟨[], 0, [Event.publish c10rec, Event.publish c10rec2, Event.close], true⟩,
      Relation.ReflTransGen.head st1
        (Relation.ReflTransGen.head st2 (Relation.ReflTransGen.single st3)),
      rfl⟩,
    by decide, by decide, by decide, by decide, by decide, by decide, by decide, by decide⟩

end ExtractHostnames
